import Mathlib

/-!
Verification of the in-memory OPFS mock (`opfs-mock`).

The development shallowly embeds the byte-buffer revision of
`src/src/opfs.ts` (the revision exercised by the repository's
`opfs.test.ts`): file contents are `List Nat` byte sequences, the
writable-stream engine is an explicit state machine, and directory trees
are nested inductive values.  Parts of the repository that are present
only through their tests (the exclusive sync-access-handle lock, the
file/directory `TypeMismatch` check, the `NotEmpty` removal rule, the
identity-token entry comparison, and the structured `seek` write command)
are modelled from the specification; each such definition says so in its
doc comment.
-/

namespace OpfsMock

/-- Byte-buffer write, embedding the grow-then-set logic that appears both
in `createWritable.write` (`const requiredSize = cursorPosition +
encoded.length; if (content.length < requiredSize) { extend with zeros };
content.set(encoded, cursorPosition)`) and, with `at` in place of the
cursor, in `createSyncAccessHandle.write` of `src/src/opfs.ts`. -/
def writeAt (c : List Nat) (src : List Nat) (pos : Nat) : List Nat :=
  let grown :=
    if c.length < pos + src.length then
      c ++ List.replicate (pos + src.length - c.length) 0
    else c
  grown.take pos ++ src ++ grown.drop (pos + src.length)

/-- Number of bytes returned by `createSyncAccessHandle.read` in
`src/src/opfs.ts`: `if (at >= content.length) return 0;` then
`min(writable, content.length - at)` where `writable` is the destination
capacity. -/
def readCount (c : List Nat) (cap : Nat) (pos : Nat) : Nat :=
  if c.length ≤ pos then 0 else min cap (c.length - pos)

/-- The bytes copied into the destination by `createSyncAccessHandle.read`:
`content.subarray(at, at + bytesToRead)`. -/
def readData (c : List Nat) (cap : Nat) (pos : Nat) : List Nat :=
  if c.length ≤ pos then [] else (c.drop pos).take (min cap (c.length - pos))

/-- Buffer resize, embedding the identical three-way branch of the
stream `truncate` method and of `createSyncAccessHandle.truncate` in
`src/src/opfs.ts`: shrink by `slice(0, size)`, grow by copying into a
fresh zero-initialized buffer of the requested size. -/
def bufResize (c : List Nat) (size : Nat) : List Nat :=
  if size < c.length then c.take size
  else if c.length < size then c ++ List.replicate (size - c.length) 0
  else c

/-- Errors surfaced by the mock: plain `Error(abortReason)`, `TypeError`,
and `DOMException(message, name)`. -/
inductive OpfsError where
  | jsError (msg : String)
  | typeError (msg : String)
  | domException (msg : String) (exnName : String)
deriving DecidableEq, Repr

/-- Per-open-stream state of `createWritable` in `src/src/opfs.ts`: the
working byte buffer, the cursor, the two lifecycle flags and the recorded
abort reason. -/
structure StreamState where
  content : List Nat
  cursorPosition : Nat
  isAborted : Bool
  isClosed : Bool
  abortReason : String
deriving DecidableEq, Repr

/-- Initial stream state built by `createWritable(options)`: with
`keepExistingData` the working buffer is seeded from the committed
content and the cursor starts at its length, otherwise both are empty. -/
def initStream (committed : List Nat) (keepExistingData : Bool) : StreamState :=
  { content := if keepExistingData then committed else []
    cursorPosition := if keepExistingData then committed.length else 0
    isAborted := false
    isClosed := false
    abortReason := "" }

/-- A chunk passed to the stream's `write`, already normalized to bytes
(the source UTF-8-encodes strings, reads blobs, and views array buffers
before touching the working buffer).  `truncateCmd` is the
`{type: "truncate", size}` command; `writeParams` is an object with a
`data` field and optional `position`/`size`.  `seekCmd` is the
`{type: "seek", position}` command.  Modelled from the spec: the
`seekCmd` branch (validate `position >= 0`, else an invalid-position
type error; on success set `cursorPosition`) is absent from the
revisions under `src/` and is taken from spec §4.3 and the repository's
tests. -/
inductive WriteChunk where
  | bytes (data : List Nat)
  | truncateCmd (size : Int)
  | seekCmd (position : Int)
  | writeParams (data : Option (List Nat)) (position : Option Int) (size : Option Int)
deriving DecidableEq, Repr

/-- Returns `true` when an optional numeric field is present and negative. -/
def optNegative (o : Option Int) : Bool :=
  match o with
  | some v => decide (v < 0)
  | none => false

/-- The stream `write` method of `src/src/opfs.ts`: rejects after abort
(with the recorded reason) or close; validates structured commands;
writes the encoded bytes at the cursor via the grow-then-set logic
(`writeAt`) and advances the cursor. -/
def streamWrite (s : StreamState) (chunk : WriteChunk) : Except OpfsError StreamState :=
  if s.isAborted then .error (.jsError s.abortReason)
  else if s.isClosed then .error (.typeError "Cannot write to a CLOSED writable stream")
  else
    match chunk with
    | .truncateCmd size =>
        if size < 0 then .error (.typeError "Invalid size value in truncate parameters")
        else
          .ok { s with content := bufResize s.content size.toNat
                       cursorPosition := min s.cursorPosition size.toNat }
    | .seekCmd position =>
        if position < 0 then
          .error (.typeError "Invalid position value in write parameters")
        else .ok { s with cursorPosition := position.toNat }
    | .bytes data =>
        .ok { s with content := writeAt s.content data s.cursorPosition
                     cursorPosition := s.cursorPosition + data.length }
    | .writeParams data position size =>
        if optNegative position then
          .error (.typeError "Invalid position value in write parameters")
        else if optNegative size then
          .error (.typeError "Invalid size value in write parameters")
        else
          let cur := match position with
            | some q => q.toNat
            | none => s.cursorPosition
          let encoded := data.getD []
          .ok { s with content := writeAt s.content encoded cur
                       cursorPosition := cur + encoded.length }

/-- The stream `seek` method of `src/src/opfs.ts`: rejects negative
positions with an `IndexSizeError` `DOMException`, otherwise sets the
cursor (no upper bound, and no lifecycle check in the source). -/
def streamSeek (s : StreamState) (position : Int) : Except OpfsError StreamState :=
  if position < 0 then .error (.domException "Invalid seek position" "IndexSizeError")
  else .ok { s with cursorPosition := position.toNat }

/-- The stream `truncate` method of `src/src/opfs.ts`: rejects negative
sizes with an `IndexSizeError` `DOMException`, otherwise resizes the
working buffer and clamps the cursor. -/
def streamTruncate (s : StreamState) (size : Int) : Except OpfsError StreamState :=
  if size < 0 then .error (.domException "Invalid truncate size" "IndexSizeError")
  else .ok { s with content := bufResize s.content size.toNat
                    cursorPosition := min s.cursorPosition size.toNat }

/-- The stream `abort` method of `src/src/opfs.ts`: a no-op when already
aborted; records the first non-empty reason and sets the aborted flag. -/
def streamAbort (s : StreamState) (reason : Option String) : StreamState :=
  if s.isAborted then s
  else
    { s with
      isAborted := true
      abortReason :=
        match reason with
        | some r => if r ≠ "" ∧ s.abortReason = "" then r else s.abortReason
        | none => s.abortReason }

/-- The stream `close` method of `src/src/opfs.ts`: fails when already
closed or aborted; otherwise marks the stream closed and commits the
working buffer as the file entry's new content (the returned second
component). -/
def streamClose (s : StreamState) : Except OpfsError (StreamState × List Nat) :=
  if s.isClosed then .error (.typeError "Cannot close a CLOSED writable stream")
  else if s.isAborted then .error (.typeError "Cannot close a ERRORED writable stream")
  else .ok ({ s with isClosed := true }, s.content)

/-- One operation against an open writable stream. -/
inductive StreamCmd where
  | write (chunk : WriteChunk)
  | seek (position : Int)
  | truncate (size : Int)
  | abort (reason : Option String)
  | close
deriving DecidableEq, Repr

/-- One step of the stream engine over (stream state, committed file
content).  Only `close` can change the committed component. -/
def streamStep (st : StreamState × List Nat) :
    StreamCmd → Except OpfsError (StreamState × List Nat)
  | .write ch => (streamWrite st.1 ch).map (fun s => (s, st.2))
  | .seek q => (streamSeek st.1 q).map (fun s => (s, st.2))
  | .truncate z => (streamTruncate st.1 z).map (fun s => (s, st.2))
  | .abort r => .ok (streamAbort st.1 r, st.2)
  | .close => streamClose st.1

/-- Run a sequence of stream operations; a rejected operation leaves the
state untouched (the source throws before any mutation). -/
def streamRun (st : StreamState × List Nat) : List StreamCmd → StreamState × List Nat
  | [] => st
  | cmd :: rest =>
    match streamStep st cmd with
    | .ok st' => streamRun st' rest
    | .error _ => streamRun st rest

theorem streamStep_committed (st : StreamState × List Nat) (cmd : StreamCmd)
    (hne : cmd ≠ StreamCmd.close) (st' : StreamState × List Nat)
    (h : streamStep st cmd = .ok st') : st'.2 = st.2 := by
  cases cmd with
  | write ch =>
      cases hw : streamWrite st.1 ch with
      | ok a => simp [streamStep, hw, Except.map] at h; simp [← h]
      | error e => simp [streamStep, hw, Except.map] at h
  | seek q =>
      cases hw : streamSeek st.1 q with
      | ok a => simp [streamStep, hw, Except.map] at h; simp [← h]
      | error e => simp [streamStep, hw, Except.map] at h
  | truncate z =>
      cases hw : streamTruncate st.1 z with
      | ok a => simp [streamStep, hw, Except.map] at h; simp [← h]
      | error e => simp [streamStep, hw, Except.map] at h
  | abort r => simp [streamStep] at h; simp [← h]
  | close => exact absurd rfl hne

theorem streamRun_committed (cmds : List StreamCmd)
    (hnc : ∀ cmd ∈ cmds, cmd ≠ StreamCmd.close) (st : StreamState × List Nat) :
    (streamRun st cmds).2 = st.2 := by
  induction cmds generalizing st with
  | nil => rfl
  | cons cmd rest ih =>
      have hcmd : cmd ≠ StreamCmd.close := hnc cmd (List.mem_cons_self cmd rest)
      have hrest : ∀ c ∈ rest, c ≠ StreamCmd.close := fun c hc =>
        hnc c (List.mem_cons_of_mem cmd hc)
      unfold streamRun
      cases hs : streamStep st cmd with
      | ok st' =>
          rw [ih hrest st', streamStep_committed st cmd hcmd st' hs]
      | error e => exact ih hrest st

/-- C2: a writable stream never touches the file entry's committed
content until a successful close — any sequence of write/seek/truncate/
abort operations leaves the committed component unchanged — and a
successful `close` from the open state commits exactly the stream's
working buffer. -/
theorem stream_commit_only_on_close :
    (∀ (st : StreamState × List Nat) (cmds : List StreamCmd),
      (∀ cmd ∈ cmds, cmd ≠ StreamCmd.close) → (streamRun st cmds).2 = st.2) ∧
    (∀ s : StreamState, s.isClosed = false → s.isAborted = false →
      streamClose s = .ok ({ s with isClosed := true }, s.content)) := by
  constructor
  · intro st cmds h
    exact streamRun_committed cmds h st
  · intro s hC hA
    simp [streamClose, hC, hA]

/-- Witness for C2 at a concrete run: a write, a seek, a truncate and an
abort leave the committed content `[9]` unchanged, and a fresh stream's
close commits its (empty) working buffer. -/
theorem stream_commit_only_on_close_witness :
    (streamRun (initStream [9] false, [9])
      [StreamCmd.write (.bytes [1, 2]), StreamCmd.seek 0,
       StreamCmd.truncate 1, StreamCmd.abort (some "stop")]).2 = [9] ∧
    streamClose (initStream [9] false) =
      .ok ({ initStream [9] false with isClosed := true }, []) := by
  constructor
  · exact stream_commit_only_on_close.1 (initStream [9] false, [9]) _ (by decide)
  · exact stream_commit_only_on_close.2 (initStream [9] false) rfl rfl

/-- C7: on an open stream, both the `seek(position)` method and the
structured `{type: "seek"}` write command fail exactly when the position
is negative, and for every non-negative position — with no upper bound —
they succeed and set the cursor to that position. -/
theorem seek_spec (s : StreamState) (q : Int)
    (hA : s.isAborted = false) (hC : s.isClosed = false) :
    (q < 0 →
      streamSeek s q = .error (.domException "Invalid seek position" "IndexSizeError") ∧
      streamWrite s (.seekCmd q) =
        .error (.typeError "Invalid position value in write parameters")) ∧
    (0 ≤ q →
      streamSeek s q = .ok { s with cursorPosition := q.toNat } ∧
      streamWrite s (.seekCmd q) = .ok { s with cursorPosition := q.toNat }) := by
  constructor
  · intro hq
    constructor
    · simp [streamSeek, hq]
    · simp [streamWrite, hA, hC, hq]
  · intro hq
    constructor
    · simp [streamSeek, not_lt.mpr hq]
    · simp [streamWrite, hA, hC, not_lt.mpr hq]

/-- Witness for C7: seeking to 5 on a fresh (empty, hence shorter than 5)
stream succeeds and sets the cursor, through the method and the command
alike. -/
theorem seek_spec_witness :
    streamSeek (initStream [] false) 5 =
      .ok { initStream [] false with cursorPosition := 5 } ∧
    streamWrite (initStream [] false) (.seekCmd 5) =
      .ok { initStream [] false with cursorPosition := 5 } :=
  (seek_spec (initStream [] false) 5 rfl rfl).2 (by decide)

/-- C8: resizing a buffer to size `s` (the shared logic of the stream's
`truncate` and the sync access handle's `truncate`) yields a buffer of
length `s` that is the original's first `s` bytes followed by
`s - oldLength` zero bytes — so a shrink keeps exactly the prefix and a
grow zero-fills the tail. -/
theorem bufResize_spec (c : List Nat) (s : Nat) :
    (bufResize c s).length = s ∧
    bufResize c s = c.take s ++ List.replicate (s - c.length) 0 ∧
    (∀ st : StreamState, st.isAborted = false →
      streamTruncate st (s : Int) =
        .ok { st with content := bufResize st.content s
                      cursorPosition := min st.cursorPosition s }) := by
  refine ⟨?_, ?_, ?_⟩
  · unfold bufResize
    by_cases h1 : s < c.length
    · simp [h1]
      omega
    · by_cases h2 : c.length < s
      · simp [h1, h2]
        omega
      · simp [h1, h2]
        omega
  · unfold bufResize
    by_cases h1 : s < c.length
    · have : s - c.length = 0 := by omega
      simp [h1, this]
    · by_cases h2 : c.length < s
      · have : c.take s = c := List.take_of_length_le (by omega)
        simp [h1, h2, this]
      · have hs : s = c.length := by omega
        have : c.take s = c := List.take_of_length_le (by omega)
        simp [h1, h2, this, hs]
  · intro st _
    have : ¬ ((s : Int) < 0) := by omega
    simp [streamTruncate, this]

/-- Witness for C8 at a concrete input: growing `[7, 8]` to size 4
zero-fills, and the stream's `truncate(4)` does the same to its working
buffer. -/
theorem bufResize_spec_witness :
    bufResize [7, 8] 4 = [7, 8] ++ List.replicate 2 0 ∧
    streamTruncate (initStream [7, 8] true) (4 : Int) =
      .ok { initStream [7, 8] true with
              content := bufResize [7, 8] 4
              cursorPosition := min 2 4 } := by
  constructor
  · exact (bufResize_spec [7, 8] 4).2.1
  · exact (bufResize_spec [7, 8] 4).2.2 (initStream [7, 8] true) rfl

/-- C9: the sync access handle's `read` returns `min(capacity, length -
at)` bytes, which is 0 whenever `at` is at or beyond the current length
(for every such offset) and 0 whenever the destination has no
capacity. -/
theorem readCount_spec (c : List Nat) (cap pos : Nat) :
    readCount c cap pos = min cap (c.length - pos) ∧
    (c.length ≤ pos → readCount c cap pos = 0) ∧
    readCount c 0 pos = 0 := by
  refine ⟨?_, ?_, ?_⟩
  · unfold readCount
    by_cases h : c.length ≤ pos
    · simp [h]
    · simp [h]
  · intro h
    unfold readCount
    simp [h]
  · unfold readCount
    by_cases h : c.length ≤ pos <;> simp [h]

/-- Witness for C9: reading 4 bytes past the end of a 3-byte file
returns 0 bytes; with a 2-byte destination at offset 1 it returns 2. -/
theorem readCount_spec_witness :
    readCount [1, 2, 3] 4 3 = 0 ∧ readCount [1, 2, 3] 2 1 = min 2 2 := by
  constructor
  · exact (readCount_spec [1, 2, 3] 4 3).2.1 (by decide)
  · exact (readCount_spec [1, 2, 3] 2 1).1

/-- Association-list lookup with the semantics of `Map.prototype.get`:
the value of the first (unique, for map-built lists) pair with the given
key. -/
def lookupName {α : Type} : List (String × α) → String → Option α
  | [], _ => none
  | p :: rest, k => if p.1 = k then some p.2 else lookupName rest k

/-- Association-list removal with the semantics of `Map.prototype.delete`:
drop the (unique) pair with the given key. -/
def eraseName {α : Type} : List (String × α) → String → List (String × α)
  | [], _ => []
  | p :: rest, k => if p.1 = k then rest else p :: eraseName rest k

/-- Returns `true` when a key list has no duplicates (the invariant of keys drawn
from a `Map`). -/
def nodupKeysB : List String → Bool
  | [] => true
  | k :: ks => if k ∈ ks then false else nodupKeysB ks

/-- Modelled from the spec: acquisition of a Synchronous Access Handle
against the File Entry's `locked` flag — absent from the revisions under
`src/` (only their tests exercise it).  Per spec §4.4 and the
repository's tests, acquisition fails with an already-locked
`InvalidStateError` when the flag is set, otherwise sets the flag. -/
def acquireSyncHandle (locked : Bool) : Except OpfsError Bool :=
  if locked then
    .error (.domException "A sync access handle is already open for this file"
      "InvalidStateError")
  else .ok true

/-- Modelled from the spec: a Synchronous Access Handle's `close` clears
the File Entry's `locked` flag, permitting a new acquisition. -/
def releaseSyncHandle (_locked : Bool) : Bool := false

/-- A lock-relevant event on one File Entry: an acquisition attempt or
the close of the currently open handle. -/
inductive LockEvent where
  | acquire
  | release
deriving DecidableEq, Repr

/-- Lock state transition over (locked flag, number of open handles): a
failed acquisition changes nothing; a successful one opens a handle;
a close closes it and clears the flag. -/
def lockStep (st : Bool × Nat) : LockEvent → Bool × Nat
  | .acquire =>
      match acquireSyncHandle st.1 with
      | .ok l => (l, st.2 + 1)
      | .error _ => st
  | .release => (releaseSyncHandle st.1, st.2 - 1)

/-- Run a sequence of lock events against a freshly created File Entry
(unlocked, no open handle). -/
def lockRun (evs : List LockEvent) : Bool × Nat :=
  evs.foldl lockStep (false, 0)

/-- One name-keyed directory level of `src/src/opfs.ts`: the `files` and
`directories` maps, values abstracted to numeric handle identifiers,
insertion order preserved. -/
structure DirMaps where
  files : List (String × Nat)
  directories : List (String × Nat)
deriving DecidableEq, Repr

/-- Semantics of `Map.prototype.set`: an existing key keeps its position and takes the
new value; a new key is appended. -/
def mapSet (m : List (String × Nat)) (k : String) (v : Nat) : List (String × Nat) :=
  if (lookupName m k).isSome then
    m.map (fun p => if p.1 = k then (k, v) else p)
  else m ++ [(k, v)]

/-- Semantics of `new Map(pairs)`: insert every pair, in order, into an empty map. -/
def mapFromPairs (l : List (String × Nat)) : List (String × Nat) :=
  l.foldl (fun m p => mapSet m p.1 p.2) []

/-- The `getJoinedMaps` helper of `src/src/opfs.ts`:
`new Map([...files, ...directories])` — a fresh private copy. -/
def getJoinedMaps (d : DirMaps) : List (String × Nat) :=
  mapFromPairs (d.files ++ d.directories)

/-- A mutation of the directory while an iteration may be in progress. -/
inductive DirEv where
  | addFile (n : String) (v : Nat)
  | addDir (n : String) (v : Nat)
  | removeName (n : String)
deriving DecidableEq, Repr

/-- Apply a directory mutation to the two maps. -/
def dirApply (d : DirMaps) : DirEv → DirMaps
  | .addFile n v => { d with files := mapSet d.files n v }
  | .addDir n v => { d with directories := mapSet d.directories n v }
  | .removeName n =>
      { files := eraseName d.files n
        directories := eraseName d.directories n }

/-- A directory together with one in-progress iteration: the iteration
holds the private joined copy taken when its first item was requested
(the generator body runs `getJoinedMaps` once). -/
structure IterSys where
  dir : DirMaps
  snapshot : List (String × Nat)
deriving DecidableEq, Repr

/-- Start an iteration (`entries()`, `keys()`, `values()` or the default
async iterator): capture the joined copy from the directory's current
contents. -/
def iterStart (d : DirMaps) : IterSys :=
  { dir := d, snapshot := getJoinedMaps d }

/-- Mutate the directory while the iteration is in progress; the
iteration's private copy is untouched. -/
def sysStep (s : IterSys) (e : DirEv) : IterSys :=
  { s with dir := dirApply s.dir e }

/-- One directory node of the entry tree: the `files` and `directories`
name-keyed collections of `fileSystemDirectoryHandleFactory` (insertion
order preserved); file values are their byte contents. -/
inductive DirTree where
  | mk (files : List (String × List Nat)) (subdirs : List (String × DirTree))

/-- The `files` map of a directory node. -/
def DirTree.files : DirTree → List (String × List Nat)
  | .mk fs _ => fs

/-- The `directories` map of a directory node. -/
def DirTree.subdirs : DirTree → List (String × DirTree)
  | .mk _ ds => ds

/-- Modelled from the spec: `getFileHandle(name, {create})` with the
file/directory `TypeMismatch` check of spec §4.2, which is absent from
the revisions under `src/` (only their tests exercise it): fail with
`TypeMismatchError` when a directory of that name exists; return the
existing file; when absent, create an empty one if `create` is set, else
fail with `NotFoundError`.  Returns the file content and the updated
directory. -/
def getFile (d : DirTree) (name : String) (create : Bool) :
    Except OpfsError (List Nat × DirTree) :=
  if (lookupName d.subdirs name).isSome then
    .error (.domException ("A directory with the same name exists: " ++ name)
      "TypeMismatchError")
  else
    match lookupName d.files name with
    | some content => .ok (content, d)
    | none =>
        if create then .ok ([], .mk (d.files ++ [(name, [])]) d.subdirs)
        else .error (.domException ("File not found: " ++ name) "NotFoundError")

/-- Modelled from the spec: `getDirectoryHandle(name, {create})`,
symmetric to `getFile` with the roles of files and directories swapped
for the `TypeMismatch` check. -/
def getDirectory (d : DirTree) (name : String) (create : Bool) :
    Except OpfsError (DirTree × DirTree) :=
  if (lookupName d.files name).isSome then
    .error (.domException ("A file with the same name exists: " ++ name)
      "TypeMismatchError")
  else
    match lookupName d.subdirs name with
    | some child => .ok (child, d)
    | none =>
        if create then
          .ok (.mk [] [], .mk d.files (d.subdirs ++ [(name, .mk [] [])]))
        else .error (.domException ("Directory not found: " ++ name) "NotFoundError")

/-- A directory with no children. -/
def dirIsEmpty (d : DirTree) : Bool :=
  d.files.isEmpty && d.subdirs.isEmpty

/-- Modelled from the spec: `removeEntry(name, {recursive})` with the
`NotEmpty` rule of spec §4.2, absent from the revisions under `src/`
(their newer tests exercise it): a file is detached unconditionally; a
directory is detached when `recursive` is set or when it is empty, and
otherwise removal fails with the not-empty `InvalidModificationError`;
an unknown name fails with `NotFoundError`. -/
def removeEntry (d : DirTree) (name : String) (recursive : Bool) :
    Except OpfsError DirTree :=
  if (lookupName d.files name).isSome then
    .ok (.mk (eraseName d.files name) d.subdirs)
  else
    match lookupName d.subdirs name with
    | some child =>
        if recursive then .ok (.mk d.files (eraseName d.subdirs name))
        else if dirIsEmpty child then .ok (.mk d.files (eraseName d.subdirs name))
        else .error (.domException "The directory is not empty" "InvalidModificationError")
    | none =>
        .error (.domException ("No such file or directory: " ++ name) "NotFoundError")

/-- One directory-level operation. -/
inductive DirOp where
  | getF (name : String) (create : Bool)
  | getD (name : String) (create : Bool)
  | remove (name : String) (recursive : Bool)
deriving DecidableEq, Repr

/-- Apply one operation to a directory node; a rejected operation leaves
it unchanged. -/
def dirStep (d : DirTree) : DirOp → DirTree
  | .getF n c =>
      match getFile d n c with
      | .ok r => r.2
      | .error _ => d
  | .getD n c =>
      match getDirectory d n c with
      | .ok r => r.2
      | .error _ => d
  | .remove n r =>
      match removeEntry d n r with
      | .ok d' => d'
      | .error _ => d

/-- Run a sequence of operations against a directory node. -/
def dirRun (d : DirTree) (ops : List DirOp) : DirTree :=
  ops.foldl dirStep d

/-- The per-node invariant: no name is both a file key and a directory
key. -/
def nodeOkB (d : DirTree) : Bool :=
  d.files.all (fun p => (lookupName d.subdirs p.1).isNone)

/-- The sync access handle `write` of `src/src/opfs.ts`: grow-then-set
at the requested offset (the `writeAt` logic) on the committed buffer;
returns the new content and the reported byte count. -/
def syncWrite (c : List Nat) (data : List Nat) (pos : Nat) : List Nat × Nat :=
  (writeAt c data pos, data.length)

/-- Modelled from the spec: a handle as seen by `isSameEntry` — a name
plus the opaque per-entry identity token of spec §4.2/§9.  The identity
token is absent from the revisions under `src/` (their `isSameEntry`
compares name and kind); the newer test file exercises token-based
comparison. -/
structure EntryRef where
  name : String
  ident : Nat
deriving DecidableEq, Repr

/-- Modelled from the spec: `isSameEntry` compares identity tokens,
never names. -/
def isSameEntry (a b : EntryRef) : Bool :=
  a.ident == b.ident

/-- An entry tree for path resolution: every node carries its identity
token; a directory holds its named children in joined iteration order
(files before subdirectories). -/
inductive IdTree where
  | fileE (ident : Nat)
  | dirE (ident : Nat) (children : List (String × IdTree))

/-- The identity token of a tree node. -/
def IdTree.identOf : IdTree → Nat
  | .fileE i => i
  | .dirE i _ => i

mutual

/-- The `traverseDirectory` depth-first search inside `resolve` of
`src/src/opfs.ts`, with entry comparison by identity token as modelled
from the spec: return the accumulated path when the directory itself
matches, otherwise scan the children in iteration order. -/
def resolveGo (target : Nat) (t : IdTree) (path : List String) :
    Option (List String) :=
  match t with
  | .fileE _ => none
  | .dirE i children =>
      if i = target then some path else resolveChildren target children path
termination_by sizeOf t

/-- The `for await (const [name, handle] of directory.entries())` loop of
`resolve`: recurse into subdirectories, compare files, first match
wins. -/
def resolveChildren (target : Nat) (l : List (String × IdTree))
    (path : List String) : Option (List String) :=
  match l with
  | [] => none
  | (n, c) :: rest =>
      match c with
      | .fileE fi =>
          if fi = target then some (path ++ [n])
          else resolveChildren target rest path
      | .dirE ci cs =>
          match resolveGo target (.dirE ci cs) (path ++ [n]) with
          | some r => some r
          | none => resolveChildren target rest path
termination_by sizeOf l

end

mutual

/-- Well-formedness of an entry tree: every directory's child names are
distinct (they come from a name-keyed `Map`). -/
def treeWf (t : IdTree) : Bool :=
  match t with
  | .fileE _ => true
  | .dirE _ children =>
      nodupKeysB (children.map Prod.fst) && treeWfChildren children
termination_by sizeOf t

/-- Well-formedness of a child list. -/
def treeWfChildren (l : List (String × IdTree)) : Bool :=
  match l with
  | [] => true
  | (_, c) :: rest => treeWf c && treeWfChildren rest
termination_by sizeOf l

end

/-- Follow a path of names down the tree and return the identity token
of the entry it designates. -/
def identAt (t : IdTree) (path : List String) : Option Nat :=
  match path with
  | [] => some t.identOf
  | n :: rest =>
      match t with
      | .fileE _ => none
      | .dirE _ children =>
          match lookupName children n with
          | some c => identAt c rest
          | none => none

theorem writeAt_length (c b : List Nat) (p : Nat) :
    (writeAt c b p).length = max c.length (p + b.length) := by
  unfold writeAt
  by_cases h : c.length < p + b.length
  · simp only [if_pos h]
    simp [List.length_take, List.length_drop]
    omega
  · simp only [if_neg h]
    simp [List.length_take, List.length_drop]
    omega

theorem readData_writeAt (c b : List Nat) (p : Nat) :
    readData (writeAt c b p) b.length p = b := by
  rcases b with _ | ⟨x, xs⟩
  · unfold readData
    by_cases h : (writeAt c [] p).length ≤ p
    · simp [h]
    · simp [h]
  · set b := x :: xs with hb
    have hbpos : 0 < b.length := by rw [hb]; simp
    unfold writeAt
    set grown := (if c.length < p + b.length then
        c ++ List.replicate (p + b.length - c.length) 0 else c) with hg
    have hgrown : p + b.length ≤ grown.length := by
      rw [hg]
      split
      · simp
        omega
      · omega
    set A := grown.take p with hA
    set B := grown.drop (p + b.length) with hB
    have htakeA : A.length = p := by
      rw [hA, List.length_take]; omega
    have hlenL : (A ++ b ++ B).length = grown.length := by
      simp only [List.length_append, htakeA, hB, List.length_drop]
      omega
    unfold readData
    rw [hlenL]
    rw [if_neg (by omega)]
    have hmin : min b.length (grown.length - p) = b.length := by omega
    rw [hmin, List.append_assoc, List.drop_left' htakeA, List.take_left' rfl]

/-- C1: writing bytes `b` at offset `p` — whether through the writable
stream engine positioned at `p` or through a sync access handle write at
`p` — grows the buffer to at least `p + len b`, and reading `len b` bytes
back from `p` returns exactly `b`, even when `p` is beyond the original
length. -/
theorem writeAt_roundtrip (c b : List Nat) (p : Nat) :
    streamWrite ⟨c, p, false, false, ""⟩ (.bytes b) =
      .ok ⟨writeAt c b p, p + b.length, false, false, ""⟩ ∧
    (syncWrite c b p).1 = writeAt c b p ∧
    p + b.length ≤ (writeAt c b p).length ∧
    readData (writeAt c b p) b.length p = b := by
  refine ⟨rfl, rfl, ?_, ?_⟩
  · rw [writeAt_length]; omega
  · exact readData_writeAt c b p


theorem lockStep_inv (st : Bool × Nat) (e : LockEvent)
    (h1 : st.2 ≤ 1) (h2 : st.1 = false → st.2 = 0) :
    (lockStep st e).2 ≤ 1 ∧ ((lockStep st e).1 = false → (lockStep st e).2 = 0) := by
  cases e with
  | acquire =>
      by_cases hl : st.1 = true
      · have hstep : lockStep st .acquire = st := by
          simp [lockStep, acquireSyncHandle, hl]
        rw [hstep]
        exact ⟨h1, h2⟩
      · have hl' : st.1 = false := by simpa using hl
        have h0 := h2 hl'
        simp [lockStep, acquireSyncHandle, hl', h0]
  | release =>
      simp [lockStep, releaseSyncHandle]
      omega

theorem lockRun_inv (evs : List LockEvent) (st : Bool × Nat)
    (h1 : st.2 ≤ 1) (h2 : st.1 = false → st.2 = 0) :
    (evs.foldl lockStep st).2 ≤ 1 ∧
      ((evs.foldl lockStep st).1 = false → (evs.foldl lockStep st).2 = 0) := by
  induction evs generalizing st with
  | nil => exact ⟨h1, h2⟩
  | cons e rest ih =>
      have h := lockStep_inv st e h1 h2
      simpa [List.foldl] using ih (lockStep st e) h.1 h.2

/-- C3: acquiring a sync access handle fails with the already-locked
error while one is open, succeeds on an unlocked entry, succeeds again
after the open handle's close, and along every event sequence at most
one handle is open on the entry at any time. -/
theorem syncHandle_exclusive :
    acquireSyncHandle true =
      .error (.domException "A sync access handle is already open for this file"
        "InvalidStateError") ∧
    acquireSyncHandle false = .ok true ∧
    (∀ locked : Bool, acquireSyncHandle (releaseSyncHandle locked) = .ok true) ∧
    (∀ evs : List LockEvent, (lockRun evs).2 ≤ 1) := by
  refine ⟨rfl, rfl, fun locked => rfl, fun evs => ?_⟩
  exact (lockRun_inv evs (false, 0) (by omega) (fun _ => rfl)).1

theorem lookupName_eq_none {α : Type} (l : List (String × α)) (k : String) :
    lookupName l k = none ↔ ∀ p ∈ l, p.1 ≠ k := by
  induction l with
  | nil => simp [lookupName]
  | cons p rest ih =>
      by_cases h : p.1 = k
      · simp [lookupName, h]
      · simp [lookupName, h, ih]

theorem lookupName_append_left_none {α : Type} (l₁ l₂ : List (String × α))
    (k : String) (h : lookupName l₁ k = none) :
    lookupName (l₁ ++ l₂) k = lookupName l₂ k := by
  induction l₁ with
  | nil => rfl
  | cons p rest ih =>
      by_cases hp : p.1 = k
      · simp [lookupName, hp] at h
      · simp only [lookupName, hp, if_false, List.cons_append] at h ⊢
        exact ih h

theorem mapFromPairs_go (l : List (String × Nat)) (acc : List (String × Nat))
    (hacc : ∀ p ∈ l, lookupName acc p.1 = none)
    (hnd : nodupKeysB (l.map Prod.fst) = true) :
    l.foldl (fun m p => mapSet m p.1 p.2) acc = acc ++ l := by
  induction l generalizing acc with
  | nil => simp
  | cons p rest ih =>
      have hpl : lookupName acc p.1 = none := hacc p (List.mem_cons_self p rest)
      have hset : mapSet acc p.1 p.2 = acc ++ [(p.1, p.2)] := by
        simp [mapSet, hpl]
      rw [List.map_cons, nodupKeysB] at hnd
      split at hnd
      · exact absurd hnd (by simp)
      · rename_i hnotin
        have hacc' : ∀ q ∈ rest, lookupName (acc ++ [(p.1, p.2)]) q.1 = none := by
          intro q hq
          have hqacc : lookupName acc q.1 = none := hacc q (List.mem_cons_of_mem p hq)
          rw [lookupName_append_left_none _ _ _ hqacc]
          have hne : p.1 ≠ q.1 := by
            intro hEq
            exact hnotin (hEq ▸ List.mem_map_of_mem Prod.fst hq)
          simp [lookupName, hne]
        calc rest.foldl (fun m q => mapSet m q.1 q.2) (mapSet acc p.1 p.2)
            = rest.foldl (fun m q => mapSet m q.1 q.2) (acc ++ [(p.1, p.2)]) := by
              rw [hset]
          _ = (acc ++ [(p.1, p.2)]) ++ rest := ih (acc ++ [(p.1, p.2)]) hacc' hnd
          _ = acc ++ p :: rest := by simp

theorem getJoinedMaps_eq (d : DirMaps)
    (h : nodupKeysB ((d.files ++ d.directories).map Prod.fst) = true) :
    getJoinedMaps d = d.files ++ d.directories := by
  unfold getJoinedMaps mapFromPairs
  have hgo := mapFromPairs_go (d.files ++ d.directories) []
    (fun p _ => rfl) h
  simpa using hgo

theorem foldl_sysStep_snapshot (evs : List DirEv) (s : IterSys) :
    (evs.foldl sysStep s).snapshot = s.snapshot := by
  induction evs generalizing s with
  | nil => rfl
  | cons e rest ih =>
      simpa [List.foldl, sysStep] using ih { s with dir := dirApply s.dir e }

/-- C10: an in-progress iteration over a directory yields exactly the
items captured when it started — the private joined copy, files in
insertion order followed by directories in insertion order — and
directory mutations performed while the iteration is in progress do not
change those items. -/
theorem iteration_snapshot (d : DirMaps) (evs : List DirEv)
    (h : nodupKeysB ((d.files ++ d.directories).map Prod.fst) = true) :
    (evs.foldl sysStep (iterStart d)).snapshot = d.files ++ d.directories := by
  rw [foldl_sysStep_snapshot]
  exact getJoinedMaps_eq d h

/-- Witness for C10: adding a file and removing another while iterating
over `{files: a, directories: b}` leaves the iteration's items
`[a, b]`. -/
theorem iteration_snapshot_witness :
    ([DirEv.addFile "c" 3, DirEv.removeName "a"].foldl sysStep
      (iterStart { files := [("a", 1)], directories := [("b", 2)] })).snapshot
      = [("a", 1), ("b", 2)] :=
  iteration_snapshot { files := [("a", 1)], directories := [("b", 2)] } _ (by decide)

theorem eraseName_subset {α : Type} (l : List (String × α)) (k : String) :
    ∀ p ∈ eraseName l k, p ∈ l := by
  induction l with
  | nil => simp [eraseName]
  | cons q rest ih =>
      intro p hp
      by_cases h : q.1 = k
      · simp only [eraseName, h, if_true] at hp
        exact List.mem_cons_of_mem q hp
      · simp only [eraseName, h, if_false, List.mem_cons] at hp
        cases hp with
        | inl he => exact he ▸ List.mem_cons_self q rest
        | inr hm => exact List.mem_cons_of_mem q (ih p hm)

theorem lookupName_eraseName_none {α : Type} (l : List (String × α)) (k n : String)
    (h : lookupName l k = none) : lookupName (eraseName l n) k = none := by
  rw [lookupName_eq_none] at h ⊢
  intro p hp
  exact h p (eraseName_subset l n p hp)

theorem dirStep_nodeOk (d : DirTree) (op : DirOp) (h : nodeOkB d = true) :
    nodeOkB (dirStep d op) = true := by
  cases d with
  | mk fs ds =>
  rw [nodeOkB, List.all_eq_true] at h
  simp only [DirTree.files, DirTree.subdirs] at h
  cases op with
  | getF name create =>
      by_cases hsd : (lookupName ds name).isSome
      · have hstep : dirStep (.mk fs ds) (.getF name create) = .mk fs ds := by
          simp [dirStep, getFile, DirTree.files, DirTree.subdirs, hsd]
        rw [hstep, nodeOkB, List.all_eq_true]
        exact h
      · cases hf : lookupName fs name with
        | some content =>
            have hstep : dirStep (.mk fs ds) (.getF name create) = .mk fs ds := by
              simp [dirStep, getFile, DirTree.files, DirTree.subdirs, hsd, hf]
            rw [hstep, nodeOkB, List.all_eq_true]
            exact h
        | none =>
            by_cases hc : create = true
            · have hstep : dirStep (.mk fs ds) (.getF name create) =
                  .mk (fs ++ [(name, [])]) ds := by
                simp [dirStep, getFile, DirTree.files, DirTree.subdirs, hsd, hf, hc]
              rw [hstep, nodeOkB, List.all_eq_true]
              intro p hp
              simp only [DirTree.files, DirTree.subdirs] at hp ⊢
              rcases List.mem_append.mp hp with hin | hnew
              · exact h p hin
              · have hpn : p = (name, ([] : List Nat)) := by simpa using hnew
                rw [hpn]
                simp only [Option.isNone_iff_eq_none]
                exact Option.not_isSome_iff_eq_none.mp hsd
            · have hstep : dirStep (.mk fs ds) (.getF name create) = .mk fs ds := by
                simp [dirStep, getFile, DirTree.files, DirTree.subdirs, hsd, hf, hc]
              rw [hstep, nodeOkB, List.all_eq_true]
              exact h
  | getD name create =>
      by_cases hfi : (lookupName fs name).isSome
      · have hstep : dirStep (.mk fs ds) (.getD name create) = .mk fs ds := by
          simp [dirStep, getDirectory, DirTree.files, DirTree.subdirs, hfi]
        rw [hstep, nodeOkB, List.all_eq_true]
        exact h
      · have hfn : lookupName fs name = none :=
          Option.not_isSome_iff_eq_none.mp hfi
        cases hsd : lookupName ds name with
        | some child =>
            have hstep : dirStep (.mk fs ds) (.getD name create) = .mk fs ds := by
              simp [dirStep, getDirectory, DirTree.files, DirTree.subdirs, hfi, hsd]
            rw [hstep, nodeOkB, List.all_eq_true]
            exact h
        | none =>
            by_cases hc : create = true
            · have hstep : dirStep (.mk fs ds) (.getD name create) =
                  .mk fs (ds ++ [(name, .mk [] [])]) := by
                simp [dirStep, getDirectory, DirTree.files, DirTree.subdirs,
                  hfi, hsd, hc]
              rw [hstep, nodeOkB, List.all_eq_true]
              intro p hp
              simp only [DirTree.files, DirTree.subdirs] at hp ⊢
              have hpn : lookupName ds p.1 = none :=
                Option.isNone_iff_eq_none.mp (h p hp)
              rw [lookupName_append_left_none _ _ _ hpn]
              have hne : name ≠ p.1 := by
                intro hEq
                exact ((lookupName_eq_none fs name).mp hfn) p hp hEq.symm
              simp [lookupName, hne]
            · have hstep : dirStep (.mk fs ds) (.getD name create) = .mk fs ds := by
                simp [dirStep, getDirectory, DirTree.files, DirTree.subdirs,
                  hfi, hsd, hc]
              rw [hstep, nodeOkB, List.all_eq_true]
              exact h
  | remove name recursive =>
      by_cases hfi : (lookupName fs name).isSome
      · have hstep : dirStep (.mk fs ds) (.remove name recursive) =
            .mk (eraseName fs name) ds := by
          simp [dirStep, removeEntry, DirTree.files, DirTree.subdirs, hfi]
        rw [hstep, nodeOkB, List.all_eq_true]
        intro p hp
        simp only [DirTree.files, DirTree.subdirs] at hp ⊢
        exact h p (eraseName_subset fs name p hp)
      · cases hsd : lookupName ds name with
        | some child =>
            have herased : nodeOkB (.mk fs (eraseName ds name)) = true := by
              rw [nodeOkB, List.all_eq_true]
              intro p hp
              simp only [DirTree.files, DirTree.subdirs] at hp ⊢
              have hpn : lookupName ds p.1 = none :=
                Option.isNone_iff_eq_none.mp (h p hp)
              simp [lookupName_eraseName_none _ _ _ hpn]
            by_cases hr : recursive = true
            · have hstep : dirStep (.mk fs ds) (.remove name recursive) =
                  .mk fs (eraseName ds name) := by
                simp [dirStep, removeEntry, DirTree.files, DirTree.subdirs,
                  hfi, hsd, hr]
              rw [hstep]
              exact herased
            · by_cases he : dirIsEmpty child = true
              · have hstep : dirStep (.mk fs ds) (.remove name recursive) =
                    .mk fs (eraseName ds name) := by
                  simp [dirStep, removeEntry, DirTree.files, DirTree.subdirs,
                    hfi, hsd, hr, he]
                rw [hstep]
                exact herased
              · have hstep : dirStep (.mk fs ds) (.remove name recursive) =
                    .mk fs ds := by
                  simp [dirStep, removeEntry, DirTree.files, DirTree.subdirs,
                    hfi, hsd, hr, he]
                rw [hstep, nodeOkB, List.all_eq_true]
                exact h
        | none =>
            have hstep : dirStep (.mk fs ds) (.remove name recursive) = .mk fs ds := by
              simp [dirStep, removeEntry, DirTree.files, DirTree.subdirs, hfi, hsd]
            rw [hstep, nodeOkB, List.all_eq_true]
            exact h

theorem dirRun_nodeOk (ops : List DirOp) (d : DirTree) (h : nodeOkB d = true) :
    nodeOkB (dirRun d ops) = true := by
  induction ops generalizing d with
  | nil => exact h
  | cons op rest ih =>
      exact ih (dirStep d op) (dirStep_nodeOk d op h)

/-- C4: a file lookup fails with `TypeMismatchError` whenever a
subdirectory of that name exists (for either value of `create`), a
directory lookup fails with `TypeMismatchError` whenever a file of that
name exists, and consequently every operation sequence preserves the
invariant that no name is both a file key and a directory key of the
same directory node. -/
theorem name_kind_disjoint :
    (∀ (d : DirTree) (name : String) (create : Bool),
      (lookupName d.subdirs name).isSome →
      getFile d name create =
        .error (.domException ("A directory with the same name exists: " ++ name)
          "TypeMismatchError")) ∧
    (∀ (d : DirTree) (name : String) (create : Bool),
      (lookupName d.files name).isSome →
      getDirectory d name create =
        .error (.domException ("A file with the same name exists: " ++ name)
          "TypeMismatchError")) ∧
    (∀ (d : DirTree) (ops : List DirOp),
      nodeOkB d = true → nodeOkB (dirRun d ops) = true) := by
  refine ⟨?_, ?_, ?_⟩
  · intro d name create hsd
    simp [getFile, hsd]
  · intro d name create hfi
    simp [getDirectory, hfi]
  · intro d ops h
    exact dirRun_nodeOk ops d h

/-- Witness for C4: on a node holding directory `sub` and file `f`,
`getFile "sub"` and `getDirectory "f"` fail with `TypeMismatchError`
even with the create flag set, and a run creating and removing entries
from the empty node keeps file and directory keys disjoint. -/
theorem name_kind_disjoint_witness :
    getFile (.mk [("f", [1])] [("sub", .mk [] [])]) "sub" true =
      .error (.domException "A directory with the same name exists: sub"
        "TypeMismatchError") ∧
    getDirectory (.mk [("f", [1])] [("sub", .mk [] [])]) "f" true =
      .error (.domException "A file with the same name exists: f"
        "TypeMismatchError") ∧
    nodeOkB (dirRun (.mk [] [])
      [DirOp.getF "a" true, DirOp.getD "b" true, DirOp.getF "b" true,
       DirOp.remove "a" false]) = true := by
  refine ⟨?_, ?_, ?_⟩
  · exact name_kind_disjoint.1 (.mk [("f", [1])] [("sub", .mk [] [])]) "sub" true rfl
  · exact name_kind_disjoint.2.1 (.mk [("f", [1])] [("sub", .mk [] [])]) "f" true rfl
  · exact name_kind_disjoint.2.2 (.mk [] []) _ rfl

/-- C5: `removeEntry` detaches a file unconditionally; detaches a
directory whenever `recursive` is set; without `recursive` it succeeds
exactly on an empty directory and fails with the not-empty
`InvalidModificationError` exactly when the directory has at least one
child; and fails with `NotFoundError` when the name matches neither
collection. -/
theorem removeEntry_spec (d : DirTree) (name : String) :
    ((lookupName d.files name).isSome → ∀ r : Bool,
      removeEntry d name r = .ok (.mk (eraseName d.files name) d.subdirs)) ∧
    (∀ child : DirTree, lookupName d.files name = none →
      lookupName d.subdirs name = some child →
      removeEntry d name true = .ok (.mk d.files (eraseName d.subdirs name)) ∧
      (dirIsEmpty child = true →
        removeEntry d name false = .ok (.mk d.files (eraseName d.subdirs name))) ∧
      (dirIsEmpty child = false →
        removeEntry d name false =
          .error (.domException "The directory is not empty"
            "InvalidModificationError"))) ∧
    (lookupName d.files name = none → lookupName d.subdirs name = none →
      ∀ r : Bool, removeEntry d name r =
        .error (.domException ("No such file or directory: " ++ name)
          "NotFoundError")) := by
  refine ⟨?_, ?_, ?_⟩
  · intro hfi r
    simp [removeEntry, hfi]
  · intro child hfn hsd
    have hfi : ¬(lookupName d.files name).isSome = true := by simp [hfn]
    refine ⟨?_, ?_, ?_⟩
    · simp [removeEntry, hfi, hsd]
    · intro he
      simp [removeEntry, hfi, hsd, he]
    · intro he
      simp [removeEntry, hfi, hsd, he]
  · intro hfn hsd r
    have hfi : ¬(lookupName d.files name).isSome = true := by simp [hfn]
    simp [removeEntry, hfi, hsd]

/-- Witness for C5 on a node holding file `f`, empty directory `e` and
non-empty directory `x`: the file and the empty directory are removable
without the recursive flag, the non-empty one is not but is removable
recursively, and a missing name reports `NotFoundError`. -/
theorem removeEntry_spec_witness :
    removeEntry (.mk [("f", [1])] [("e", .mk [] []), ("x", .mk [("g", [])] [])])
        "f" false =
      .ok (.mk [] [("e", .mk [] []), ("x", .mk [("g", [])] [])]) ∧
    removeEntry (.mk [("f", [1])] [("e", .mk [] []), ("x", .mk [("g", [])] [])])
        "e" false =
      .ok (.mk [("f", [1])] [("x", .mk [("g", [])] [])]) ∧
    removeEntry (.mk [("f", [1])] [("e", .mk [] []), ("x", .mk [("g", [])] [])])
        "x" false =
      .error (.domException "The directory is not empty" "InvalidModificationError") ∧
    removeEntry (.mk [("f", [1])] [("e", .mk [] []), ("x", .mk [("g", [])] [])])
        "x" true =
      .ok (.mk [("f", [1])] [("e", .mk [] [])]) ∧
    removeEntry (.mk [("f", [1])] [("e", .mk [] []), ("x", .mk [("g", [])] [])])
        "zz" true =
      .error (.domException "No such file or directory: zz" "NotFoundError") := by
  refine ⟨?_, ?_, ?_, ?_, ?_⟩
  · exact (removeEntry_spec (.mk [("f", [1])]
      [("e", .mk [] []), ("x", .mk [("g", [])] [])]) "f").1 rfl false
  · exact ((removeEntry_spec (.mk [("f", [1])]
      [("e", .mk [] []), ("x", .mk [("g", [])] [])]) "e").2.1 (.mk [] [])
      rfl rfl).2.1 rfl
  · exact ((removeEntry_spec (.mk [("f", [1])]
      [("e", .mk [] []), ("x", .mk [("g", [])] [])]) "x").2.1 (.mk [("g", [])] [])
      rfl rfl).2.2 rfl
  · exact ((removeEntry_spec (.mk [("f", [1])]
      [("e", .mk [] []), ("x", .mk [("g", [])] [])]) "x").2.1 (.mk [("g", [])] [])
      rfl rfl).1
  · exact (removeEntry_spec (.mk [("f", [1])]
      [("e", .mk [] []), ("x", .mk [("g", [])] [])]) "zz").2.2 rfl rfl true

theorem lookupName_isSome_mem {α : Type} (l : List (String × α)) (k : String)
    (v : α) (h : lookupName l k = some v) : k ∈ l.map Prod.fst := by
  induction l with
  | nil => simp [lookupName] at h
  | cons p rest ih =>
      by_cases hp : p.1 = k
      · simp [hp]
      · simp only [lookupName, hp, if_false] at h
        simp [ih h]

theorem resolveChildren_lift (n : String) (c : IdTree)
    (rest : List (String × IdTree)) (hnotin : ¬ n ∈ rest.map Prod.fst)
    (path r : List String) (target : Nat)
    (h : ∃ n' c' s, lookupName rest n' = some c' ∧ r = path ++ n' :: s ∧
      identAt c' s = some target) :
    ∃ n₀ c₀ s₀, lookupName ((n, c) :: rest) n₀ = some c₀ ∧
      r = path ++ n₀ :: s₀ ∧ identAt c₀ s₀ = some target := by
  obtain ⟨n', c', s, hlk, hr, hident⟩ := h
  have hmem : n' ∈ rest.map Prod.fst := lookupName_isSome_mem rest n' c' hlk
  have hne : n ≠ n' := fun hEq => hnotin (hEq ▸ hmem)
  exact ⟨n', c', s, by simp [lookupName, hne, hlk], hr, hident⟩

mutual

theorem resolveGo_sound (target : Nat) (t : IdTree) (path r : List String)
    (hwf : treeWf t = true) (h : resolveGo target t path = some r) :
    ∃ s, r = path ++ s ∧ identAt t s = some target := by
  match t with
  | .fileE i => simp [resolveGo] at h
  | .dirE i children =>
      rw [resolveGo] at h
      by_cases hi : i = target
      · rw [if_pos hi] at h
        refine ⟨[], ?_, ?_⟩
        · simpa using h.symm
        · simp [identAt, IdTree.identOf, hi]
      · rw [if_neg hi] at h
        rw [treeWf] at hwf
        have hwf2 := (Bool.and_eq_true _ _).mp hwf
        obtain ⟨n, c, s, hlk, hr, hident⟩ :=
          resolveChildren_sound target children path r hwf2.1 hwf2.2 h
        refine ⟨n :: s, hr, ?_⟩
        simp [identAt, hlk, hident]
termination_by sizeOf t

theorem resolveChildren_sound (target : Nat) (l : List (String × IdTree))
    (path r : List String)
    (hnd : nodupKeysB (l.map Prod.fst) = true)
    (hwf : treeWfChildren l = true)
    (h : resolveChildren target l path = some r) :
    ∃ n c s, lookupName l n = some c ∧ r = path ++ n :: s ∧
      identAt c s = some target := by
  match l with
  | [] => simp [resolveChildren] at h
  | (n, IdTree.fileE fi) :: rest =>
      rw [treeWfChildren] at hwf
      have hwf2 := (Bool.and_eq_true _ _).mp hwf
      rw [List.map_cons, nodupKeysB] at hnd
      have hnotin : ¬ n ∈ rest.map Prod.fst := by
        by_cases hm : n ∈ rest.map Prod.fst
        · rw [if_pos hm] at hnd; exact absurd hnd (by simp)
        · exact hm
      rw [if_neg hnotin] at hnd
      rw [resolveChildren] at h
      by_cases hfi : fi = target
      · rw [if_pos hfi] at h
        refine ⟨n, .fileE fi, [], by simp [lookupName], ?_, ?_⟩
        · simpa using h.symm
        · simp [identAt, IdTree.identOf, hfi]
      · rw [if_neg hfi] at h
        exact resolveChildren_lift n (.fileE fi) rest hnotin path r target
          (resolveChildren_sound target rest path r hnd hwf2.2 h)
  | (n, IdTree.dirE ci cs) :: rest =>
      rw [treeWfChildren] at hwf
      have hwf2 := (Bool.and_eq_true _ _).mp hwf
      rw [List.map_cons, nodupKeysB] at hnd
      have hnotin : ¬ n ∈ rest.map Prod.fst := by
        by_cases hm : n ∈ rest.map Prod.fst
        · rw [if_pos hm] at hnd; exact absurd hnd (by simp)
        · exact hm
      rw [if_neg hnotin] at hnd
      rw [resolveChildren] at h
      cases hgo : resolveGo target (.dirE ci cs) (path ++ [n]) with
      | some r0 =>
          rw [hgo] at h
          simp only [Option.some.injEq] at h
          obtain ⟨s, hr, hident⟩ :=
            resolveGo_sound target (.dirE ci cs) (path ++ [n]) r0 hwf2.1 hgo
          refine ⟨n, .dirE ci cs, s, by simp [lookupName], ?_, hident⟩
          rw [← h, hr]
          simp
      | none =>
          rw [hgo] at h
          exact resolveChildren_lift n (.dirE ci cs) rest hnotin path r target
            (resolveChildren_sound target rest path r hnd hwf2.2 h)
termination_by sizeOf l

end

/-- C6: entry comparison uses the per-entry identity token, never the
name — two entries with the same name but different tokens are not the
same entry — and `resolve` from an ancestor returns a path that leads,
through the name-keyed children, to the entry carrying the searched
identity, so it never returns the path of a same-named entry with a
different identity. -/
theorem identity_spec :
    (∀ (nm : String) (i j : Nat), i ≠ j →
      isSameEntry ⟨nm, i⟩ ⟨nm, j⟩ = false) ∧
    (∀ (t : IdTree) (target : Nat) (p : List String), treeWf t = true →
      resolveGo target t [] = some p → identAt t p = some target) := by
  constructor
  · intro nm i j hij
    simp only [isSameEntry]
    exact beq_eq_false_iff_ne.mpr hij
  · intro t target p hwf h
    obtain ⟨s, hp, hident⟩ := resolveGo_sound target t [] p hwf h
    simp only [List.nil_append] at hp
    rw [hp]
    exact hident

/-- Witness for C6 on a root with two subdirectories `a` and `b`, each
holding a file named `x` with distinct identity tokens 10 and 11: the
two files are not the same entry, and resolving token 11 from the root
yields the path whose endpoint carries token 11 (the file under `b`). -/
theorem identity_spec_witness :
    isSameEntry ⟨"x", 10⟩ ⟨"x", 11⟩ = false ∧
    identAt (.dirE 0 [("a", .dirE 1 [("x", .fileE 10)]),
      ("b", .dirE 2 [("x", .fileE 11)])]) ["b", "x"] = some 11 := by
  constructor
  · exact identity_spec.1 "x" 10 11 (by decide)
  · exact identity_spec.2
      (.dirE 0 [("a", .dirE 1 [("x", .fileE 10)]),
        ("b", .dirE 2 [("x", .fileE 11)])])
      11 ["b", "x"]
      (by simp [treeWf, treeWfChildren, nodupKeysB])
      (by simp [resolveGo, resolveChildren])

end OpfsMock
